import Mathlib

/-!
Shallow embedding of the client-side booking scripts of this repository:
`staticfiles/js/public_intake.js` (slot fetching, bucketing and rendering,
calendar precheck, submission guard) and the staff action poster
(`solicitacoes.js`).  Stateful DOM effects are modelled as explicit outcome
values; machine-level JS strings are modelled as Lean `String`s over their
character lists.
-/

/- ===================== generic string helpers ===================== -/

/-- Models the JS `Number(s)` coercion for the all-digit strings this code
applies it to (hour keys such as `"09"`): the decimal value of the digits. -/
def jsNumber (s : String) : Nat :=
  s.data.foldl (fun acc c => acc * 10 + (c.toNat - 48)) 0

/-- Lexicographic (code-point) order on character lists; this is the order
`a.localeCompare(b)` induces on the zero-padded ASCII `"HH:MM"` strings the
script sorts. -/
def lexLe : List Char → List Char → Bool
  | [], _ => true
  | _ :: _, [] => false
  | a :: as, b :: bs => if a = b then lexLe as bs else decide (a.toNat < b.toNat)

/-- String comparison used by `.sort((a,b)=> a.localeCompare(b))`. -/
def strLe (a b : String) : Bool := lexLe a.data b.data

/-- Ordered insertion used to model `Array.prototype.sort` with a comparator.
Every sort call in the script sorts a duplicate-free list under a total
order, so the sorted result is unique and the algorithm choice is
immaterial. -/
def insertLe {α : Type} (le : α → α → Bool) (x : α) : List α → List α
  | [] => [x]
  | y :: ys => if le x y then x :: y :: ys else y :: insertLe le x ys

/-- Model of `Array.prototype.sort(cmp)` (see `insertLe`). -/
def sortLe {α : Type} (le : α → α → Bool) : List α → List α
  | [] => []
  | x :: xs => insertLe le x (sortLe le xs)

/-- The regex test `/^\d{2}:\d{2}$/.test(t)` from `buildSections`. -/
def isHHMM (t : String) : Bool :=
  match t.data with
  | [a, b, c, d, e] => a.isDigit && b.isDigit && decide (c = ':') && d.isDigit && e.isDigit
  | _ => false

/-- Characters before the first `':'`; this is `t.split(':')[0]`. -/
def beforeColon : List Char → List Char
  | [] => []
  | c :: cs => if c = ':' then [] else c :: beforeColon cs

/-- The hour key `const [hh] = t.split(':')` used by `buildSections`. -/
def hourStr (t : String) : String := ⟨beforeColon t.data⟩

/-- Models JS `String.prototype.trim`: strip leading and trailing
whitespace. -/
def jsTrim (s : String) : String :=
  ⟨((s.data.dropWhile Char.isWhitespace).reverse.dropWhile Char.isWhitespace).reverse⟩

/-- Models JS `s.slice(0, n)`: the first `n` characters of `s`. -/
def sliceTo (s : String) (n : Nat) : String := ⟨s.data.take n⟩

/- ===================== bucketing (public_intake.js) ===================== -/

/-- The three day-period buckets of the slot picker. -/
inductive Bucket
  | morning
  | afternoon
  | evening
deriving DecidableEq

/-- `bucketOfHour` from `public_intake.js`:
`const hh=Number(h); if (hh>=5 && hh<=11) return 'morning';
if (hh>=12 && hh<=17) return 'afternoon'; return 'evening';`. -/
def bucketOfHour (h : String) : Bucket :=
  if 5 ≤ jsNumber h ∧ jsNumber h ≤ 11 then .morning
  else if 12 ≤ jsNumber h ∧ jsNumber h ≤ 17 then .afternoon
  else .evening

/-- Insertion-ordered dedup modelling `[...new Set(xs)]`: keeps the first
occurrence of each element. -/
def setDedupAux (seen : List String) : List String → List String
  | [] => []
  | t :: ts => if t ∈ seen then setDedupAux seen ts else t :: setDedupAux (t :: seen) ts

/-- `[...new Set(xs)]`. -/
def setDedup (ts : List String) : List String := setDedupAux [] ts

/-- The `cleaned` list of `buildSections`:
`[...new Set(slots.filter(Boolean))].filter(t=>/^\d{2}:\d{2}$/.test(t))
.sort((a,b)=> a.localeCompare(b))`.  `filter(Boolean)` drops exactly the
empty string. -/
def cleanedOf (slots : List String) : List String :=
  sortLe strLe (((setDedup (slots.filter (fun t => t != ""))).filter (fun t => isHHMM t)))

/-- One pair of the insertion-ordered `byHour` object: key plus the times
pushed under that key.  `pushTime` models `(byHour[hh] ??= []).push(t)`. -/
def pushTime : List (String × List String) → String → String → List (String × List String)
  | [], hh, t => [(hh, [t])]
  | (k, l) :: rest, hh, t =>
      if k = hh then (k, l ++ [t]) :: rest else (k, l) :: pushTime rest hh t

/-- The `for (const t of cleaned)` loop building `byHour`. -/
def byHourAux (m : List (String × List String)) : List String → List (String × List String)
  | [] => m
  | t :: ts => byHourAux (pushTime m (hourStr t) t) ts

/-- The `byHour` object of `buildSections`, as an insertion-ordered
association list (JS object keys such as `"09"` are non-index keys, so they
iterate in insertion order). -/
def byHourOf (ts : List String) : List (String × List String) := byHourAux [] ts

/-- Keys of the association list, in iteration order. -/
def keysOf (m : List (String × List String)) : List String := m.map Prod.fst

/-- Invariant of the `byHour` loop after processing the prefix `p` of
`cleaned`: keys are distinct, each key's list is exactly the processed
entries with that hour (in processing order), and absent keys match no
processed entry. -/
def HourMapInv (p : List String) (m : List (String × List String)) : Prop :=
  (keysOf m).Nodup ∧
  (∀ kl ∈ m, kl.2 = p.filter (fun t => hourStr t == kl.1)) ∧
  (∀ k, k ∉ keysOf m → p.filter (fun t => hourStr t == k) = [])

/-- One accordion section: `{ hour: hh, list: byHour[hh] }`. -/
structure HourGroup where
  hour : String
  list : List String
deriving DecidableEq

/-- The `byBucket` object: one array of hour sections per bucket. -/
structure BucketSections where
  morning : List HourGroup
  afternoon : List HourGroup
  evening : List HourGroup
deriving DecidableEq

/-- The loop `Object.keys(byHour).forEach(hh=>
byBucket[bucketOfHour(hh)].push({hour:hh, list:byHour[hh]}))`. -/
def pushGroups (acc : BucketSections) : List (String × List String) → BucketSections
  | [] => acc
  | (hh, l) :: rest =>
      match bucketOfHour hh with
      | .morning => pushGroups { acc with morning := acc.morning ++ [⟨hh, l⟩] } rest
      | .afternoon => pushGroups { acc with afternoon := acc.afternoon ++ [⟨hh, l⟩] } rest
      | .evening => pushGroups { acc with evening := acc.evening ++ [⟨hh, l⟩] } rest

/-- The comparator `(a,b)=> Number(a.hour)-Number(b.hour)` (ascending). -/
def hourNumLe (a b : HourGroup) : Bool := decide (jsNumber a.hour ≤ jsNumber b.hour)

/-- `arr.sort((a,b)=> Number(a.hour)-Number(b.hour))`. -/
def sortGroups (gs : List HourGroup) : List HourGroup := sortLe hourNumLe gs

/-- The hour groups that `pushGroups` routes to bucket `b`, in `byHour`
iteration order (before the final per-bucket sort). -/
def groupsFor (b : Bucket) (m : List (String × List String)) : List HourGroup :=
  (m.filter (fun kl => decide (bucketOfHour kl.1 = b))).map (fun kl => ⟨kl.1, kl.2⟩)

/-- `buildSections` from `public_intake.js`: clean the slot list, group by
hour, route groups to buckets, and sort each bucket's groups by numeric
hour. -/
def buildSections (slots : List String) : BucketSections :=
  let byHour := byHourOf (cleanedOf slots)
  let raw := pushGroups ⟨[], [], []⟩ byHour
  ⟨sortGroups raw.morning, sortGroups raw.afternoon, sortGroups raw.evening⟩

/-- The `slotsState.sectionsByBucket[bucketKey]` lookup. -/
def sectionsFor (s : BucketSections) : Bucket → List HourGroup
  | .morning => s.morning
  | .afternoon => s.afternoon
  | .evening => s.evening

/- ===================== day-slot fetch (public_intake.js) ===================== -/

/-- Per-bucket entry count:
`sectionsByBucket.<b>.reduce((acc,s)=>acc+s.list.length,0)`. -/
def bucketCount (gs : List HourGroup) : Nat := gs.foldl (fun acc g => acc + g.list.length) 0

/-- The `counts` object computed in `fetchSlotsFor`. -/
structure Counts where
  morning : Nat
  afternoon : Nat
  evening : Nat
deriving DecidableEq

/-- `counts` from `fetchSlotsFor`. -/
def countsOf (s : BucketSections) : Counts :=
  ⟨bucketCount s.morning, bucketCount s.afternoon, bucketCount s.evening⟩

/-- `counts[b]`. -/
def countOf (c : Counts) : Bucket → Nat
  | .morning => c.morning
  | .afternoon => c.afternoon
  | .evening => c.evening

/-- The wall-clock guess
`['morning','afternoon','evening'][(now.getHours()<12) ? 0 : (now.getHours()<18?1:2)]`. -/
def guessBucket (nowHour : Nat) : Bucket :=
  if nowHour < 12 then .morning else if nowHour < 18 then .afternoon else .evening

/-- `const initialBucket = counts[guess] ? guess :
(counts.morning ? 'morning' : (counts.afternoon ? 'afternoon' : 'evening'));`
(JS number truthiness is `≠ 0`). -/
def initialBucket (c : Counts) (nowHour : Nat) : Bucket :=
  if countOf c (guessBucket nowHour) ≠ 0 then guessBucket nowHour
  else if c.morning ≠ 0 then .morning
  else if c.afternoon ≠ 0 then .afternoon
  else .evening

/-- Position of a bucket in the fallback order morning, afternoon, evening. -/
def bucketIdx : Bucket → Nat
  | .morning => 0
  | .afternoon => 1
  | .evening => 2

/-- The response observed by `fetchSlotsFor`: a non-2xx HTTP response with a
raw body, or a parsed JSON body whose `slots` field (defaulted with
`data.slots || []`) is a list of strings. -/
inductive FetchResponse
  | httpError (status : Nat) (path : String) (body : String)
  | ok (slots : List String)

/-- The UI state `fetchSlotsFor` leaves behind: `error d` means the error
panel `slotsErr` is unhidden with `errDetail.textContent = d`; `empty` means
the `slotsEmpty` panel is unhidden; `ready` means tabs were rendered from the
sections/counts with the given active bucket. -/
inductive SlotsOutcome
  | error (detail : String)
  | empty
  | ready (sections : BucketSections) (counts : Counts) (activeBucket : Bucket)
deriving DecidableEq

/-- Whether the `slotsErr` panel is visible in the outcome. -/
def showsErrorPanel : SlotsOutcome → Bool
  | .error _ => true
  | _ => false

/-- Whether the `slotsEmpty` (no availability) panel is visible. -/
def showsEmptyPanel : SlotsOutcome → Bool
  | .empty => true
  | _ => false

/-- `fetchSlotsFor` from `public_intake.js`, as a function of the observed
response and the current wall-clock hour.  A non-ok response throws
`HTTP <status> em <pathname> – <body.slice(0,140)>`, whose message the catch
block displays; an ok response with an empty raw `slots` array shows the
empty panel; otherwise sections, counts and the initial bucket are built. -/
def fetchSlotsFor (resp : FetchResponse) (nowHour : Nat) : SlotsOutcome :=
  match resp with
  | .httpError status path body =>
      .error ("HTTP " ++ toString status ++ " em " ++ path ++ " – " ++ sliceTo body 140)
  | .ok slots =>
      if slots.length = 0 then .empty
      else
        .ready (buildSections slots) (countsOf (buildSections slots))
          (initialBucket (countsOf (buildSections slots)) nowHour)

/- ===================== month precheck (public_intake.js) ===================== -/

/-- One calendar day button: its day number (`parseInt(btn.textContent,10)`)
and its `disabled` property. -/
structure DayButton where
  day : Nat
  disabled : Bool
deriving DecidableEq

/-- Result of the `mode=days` request: a parsed `days` list, or any
network/parse failure (everything the `catch` swallows). -/
inductive DaysResponse
  | ok (days : List Nat)
  | failed (err : String)

/-- `precheckMonthAvailability` from `public_intake.js`, restricted to its
effect on the day buttons and the console: on success every button whose day
is not in the allowed set is disabled; on failure the catch block only logs
`console.warn('[days] erro:', e)` and the buttons are untouched.  Returns
(buttons after, warnings logged). -/
def precheckMonthAvailability (resp : DaysResponse) (buttons : List DayButton) :
    List DayButton × List String :=
  match resp with
  | .ok days =>
      (buttons.map (fun b => if b.day ∈ days then b else { b with disabled := true }), [])
  | .failed e => (buttons, ["[days] erro: " ++ e])

/- ===================== submission guard (public_intake.js) ===================== -/

/-- Outcome of the `#submitBtn` click handler: `cancelled step msg` means
`e.preventDefault()` ran (no network submission), the wizard showed `step`,
and `alert(msg)` fired; `proceed flag` means the hidden `#_submit` input was
set to `flag` and the native form post proceeds. -/
inductive SubmitOutcome
  | cancelled (returnStep : Nat) (message : String)
  | proceed (submitFlag : String)
deriving DecidableEq

/-- The `#submitBtn` click handler:
`const telOk = !!telefone.value.trim(); const srvOk = !!servicoSel.value;
if(!telOk || !srvOk){ e.preventDefault(); showStep(1); alert('Preencha
WhatsApp e Serviço.'); return; } $('#_submit').value='1';`. -/
def submitGuard (telefone servico : String) : SubmitOutcome :=
  if jsTrim telefone = "" ∨ servico = "" then
    .cancelled 1 "Preencha WhatsApp e Serviço."
  else .proceed "1"

/- ===================== staff action poster (solicitacoes.js) ===================== -/

/-- Result of the JS `prompt` dialog: `cancelled` is the `null` return. -/
inductive PromptResult
  | cancelled
  | entered (text : String)

/-- `prompt(...) || ''`: `null` (cancel) coerces to the empty string. -/
def promptOrEmpty : PromptResult → String
  | .cancelled => ""
  | .entered s => s

/-- One form-encoded POST issued through `postForm`. -/
structure StaffPost where
  url : String
  payload : List (String × String)
deriving DecidableEq

/-- Outcome of the awaited `postForm` call: resolved, or rejected with the
thrown error's message (network failure or the `HTTP <status> - <txt>`
error on a non-2xx response). -/
inductive PostResult
  | ok
  | fail (msg : String)

/-- A button's `disabled` flag and `textContent`. -/
structure ButtonState where
  disabled : Bool
  label : String
deriving DecidableEq

/-- Observable effects of one staff action: the POSTs issued, the alerts
shown, whether `location.reload()` was requested, and the button's final
state after the `finally` block. -/
structure ActionEffects where
  posts : List StaffPost
  alerts : List String
  reloaded : Bool
  btn : ButtonState
deriving DecidableEq

/-- `openConfirm` from `solicitacoes.js`.  The dataset values are passed in;
the initial button state is unused because the script never reads it: the
`finally` block always sets `btn.disabled = false;
btn.textContent = "✅ Confirmar"`.  `postForm` throws `URL ausente` before
fetching when the URL is missing. -/
def openConfirm (url servicoId preco inicio : String) (_initBtn : ButtonState)
    (post : PostResult) : ActionEffects :=
  let payload := [("servico_id", servicoId), ("preco_cotado", preco)] ++
    (if inicio ≠ "" then [("inicio", inicio)] else [])
  if url = "" then
    ⟨[], ["Erro ao confirmar: URL ausente"], false, ⟨false, "✅ Confirmar"⟩⟩
  else
    match post with
    | .ok => ⟨[⟨url, payload⟩], [], true, ⟨false, "✅ Confirmar"⟩⟩
    | .fail msg =>
        ⟨[⟨url, payload⟩], ["Erro ao confirmar: " ++ msg], false, ⟨false, "✅ Confirmar"⟩⟩

/-- `openDeny` from `solicitacoes.js`:
`const motivo = prompt('Motivo da negativa (opcional):', '') || '';` and the
POST is issued with that `motivo` whatever the prompt returned. -/
def openDeny (url : String) (res : PromptResult) (_initBtn : ButtonState)
    (post : PostResult) : ActionEffects :=
  let motivo := promptOrEmpty res
  if url = "" then
    ⟨[], ["Erro ao negar: URL ausente"], false, ⟨false, "❌ Negar"⟩⟩
  else
    match post with
    | .ok => ⟨[⟨url, [("motivo", motivo)]⟩], [], true, ⟨false, "❌ Negar"⟩⟩
    | .fail msg =>
        ⟨[⟨url, [("motivo", motivo)]⟩], ["Erro ao negar: " ++ msg], false, ⟨false, "❌ Negar"⟩⟩

/-- `submitFinalize` from `solicitacoes.js`:
`if (!confirm('Finalizar este atendimento?')) return;` — an early return
inside `try`, so the `finally` block still resets the button. -/
def submitFinalize (url : String) (confirmed : Bool) (_initBtn : ButtonState)
    (post : PostResult) : ActionEffects :=
  if !confirmed then ⟨[], [], false, ⟨false, "🏁 Finalizar"⟩⟩
  else if url = "" then
    ⟨[], ["Erro ao finalizar: URL ausente"], false, ⟨false, "🏁 Finalizar"⟩⟩
  else
    match post with
    | .ok => ⟨[⟨url, []⟩], [], true, ⟨false, "🏁 Finalizar"⟩⟩
    | .fail msg =>
        ⟨[⟨url, []⟩], ["Erro ao finalizar: " ++ msg], false, ⟨false, "🏁 Finalizar"⟩⟩

/-- `submitNoShow` from `solicitacoes.js`:
`if (!confirm('Marcar como no-show?')) return;`. -/
def submitNoShow (url : String) (confirmed : Bool) (_initBtn : ButtonState)
    (post : PostResult) : ActionEffects :=
  if !confirmed then ⟨[], [], false, ⟨false, "🚫 No-show"⟩⟩
  else if url = "" then
    ⟨[], ["Erro ao marcar no-show: URL ausente"], false, ⟨false, "🚫 No-show"⟩⟩
  else
    match post with
    | .ok => ⟨[⟨url, []⟩], [], true, ⟨false, "🚫 No-show"⟩⟩
    | .fail msg =>
        ⟨[⟨url, []⟩], ["Erro ao marcar no-show: " ++ msg], false, ⟨false, "🚫 No-show"⟩⟩

/- ===================== sorting lemmas ===================== -/

theorem mem_insertLe {α : Type} (le : α → α → Bool) (x : α) (l : List α) (a : α) :
    a ∈ insertLe le x l ↔ a = x ∨ a ∈ l := by
  induction l with
  | nil => simp [insertLe]
  | cons y ys ih =>
    by_cases h : le x y = true
    · simp [insertLe, h]
    · simp only [insertLe, if_neg h, List.mem_cons, ih]
      tauto

theorem perm_insertLe {α : Type} (le : α → α → Bool) (x : α) (l : List α) :
    (insertLe le x l).Perm (x :: l) := by
  induction l with
  | nil => simp [insertLe]
  | cons y ys ih =>
    by_cases h : le x y = true
    · simp [insertLe, h]
    · rw [insertLe, if_neg h]
      exact (ih.cons y).trans (List.Perm.swap x y ys)

theorem perm_sortLe {α : Type} (le : α → α → Bool) (l : List α) :
    (sortLe le l).Perm l := by
  induction l with
  | nil => simp [sortLe]
  | cons x xs ih => exact (perm_insertLe le x (sortLe le xs)).trans (ih.cons x)

theorem mem_sortLe {α : Type} (le : α → α → Bool) (l : List α) (a : α) :
    a ∈ sortLe le l ↔ a ∈ l := (perm_sortLe le l).mem_iff

theorem nodup_sortLe {α : Type} (le : α → α → Bool) (l : List α) (h : l.Nodup) :
    (sortLe le l).Nodup := ((perm_sortLe le l).nodup_iff).2 h

theorem sorted_insertLe {α : Type} (le : α → α → Bool)
    (htrans : ∀ a b c, le a b = true → le b c = true → le a c = true)
    (htotal : ∀ a b, (le a b || le b a) = true)
    (x : α) (l : List α) (hs : l.Pairwise (fun a b => le a b = true)) :
    (insertLe le x l).Pairwise (fun a b => le a b = true) := by
  induction l with
  | nil => simp [insertLe]
  | cons y ys ih =>
    rcases List.pairwise_cons.1 hs with ⟨hy, hys⟩
    by_cases h : le x y = true
    · rw [insertLe, if_pos h]
      refine List.pairwise_cons.2 ⟨?_, hs⟩
      intro z hz
      rcases List.mem_cons.1 hz with rfl | hz
      · exact h
      · exact htrans x y z h (hy z hz)
    · rw [insertLe, if_neg h]
      refine List.pairwise_cons.2 ⟨?_, ih hys⟩
      intro z hz
      rcases (mem_insertLe le x ys z).1 hz with hzx | hz
      · rw [hzx]
        have hx : le x y = false := by simpa using h
        have := htotal x y
        rw [hx, Bool.false_or] at this
        exact this
      · exact hy z hz

theorem sorted_sortLe {α : Type} (le : α → α → Bool)
    (htrans : ∀ a b c, le a b = true → le b c = true → le a c = true)
    (htotal : ∀ a b, (le a b || le b a) = true)
    (l : List α) : (sortLe le l).Pairwise (fun a b => le a b = true) := by
  induction l with
  | nil => simp [sortLe]
  | cons x xs ih => exact sorted_insertLe le htrans htotal x _ ih

/- ===================== lexicographic order lemmas ===================== -/

theorem char_toNat_injective {a b : Char} (h : a.toNat = b.toNat) : a = b :=
  Char.eq_of_val_eq (UInt32.toNat.inj h)

theorem lexLe_total : ∀ as bs : List Char, (lexLe as bs || lexLe bs as) = true := by
  intro as
  induction as with
  | nil => intro bs; simp [lexLe]
  | cons a as ih =>
    intro bs
    cases bs with
    | nil => simp [lexLe]
    | cons b bs =>
      by_cases h : a = b
      · subst h
        simpa [lexLe] using ih bs
      · have hne : a.toNat ≠ b.toNat := fun hc => h (char_toNat_injective hc)
        simp only [lexLe, if_neg h, if_neg (Ne.symm h)]
        rcases Nat.lt_or_ge a.toNat b.toNat with hlt | hge
        · simp [hlt]
        · have : b.toNat < a.toNat := Nat.lt_of_le_of_ne hge (Ne.symm hne)
          simp [this]

theorem lexLe_trans : ∀ as bs cs : List Char,
    lexLe as bs = true → lexLe bs cs = true → lexLe as cs = true := by
  intro as
  induction as with
  | nil => intro bs cs _ _; simp [lexLe]
  | cons a as ih =>
    intro bs cs h1 h2
    cases bs with
    | nil => simp [lexLe] at h1
    | cons b bs =>
      cases cs with
      | nil => simp [lexLe] at h2
      | cons c cs =>
        by_cases hab : a = b
        · subst hab
          by_cases hac : a = c
          · subst hac
            rw [lexLe, if_pos rfl] at h1 h2 ⊢
            exact ih bs cs h1 h2
          · rw [lexLe, if_pos rfl] at h1
            rw [lexLe, if_neg hac] at h2 ⊢
            exact h2
        · by_cases hbc : b = c
          · subst hbc
            rw [lexLe, if_neg hab] at h1
            have hac : a ≠ b := hab
            rw [lexLe, if_neg hac]
            exact h1
          · rw [lexLe, if_neg hab] at h1
            rw [lexLe, if_neg hbc] at h2
            have h1' : a.toNat < b.toNat := of_decide_eq_true h1
            have h2' : b.toNat < c.toNat := of_decide_eq_true h2
            have hlt : a.toNat < c.toNat := Nat.lt_trans h1' h2'
            have hac : a ≠ c := fun hc => by
              subst hc
              exact Nat.lt_irrefl _ hlt
            rw [lexLe, if_neg hac]
            exact decide_eq_true hlt

theorem strLe_total : ∀ a b : String, (strLe a b || strLe b a) = true := by
  intro a b
  exact lexLe_total a.data b.data

theorem strLe_trans : ∀ a b c : String,
    strLe a b = true → strLe b c = true → strLe a c = true := by
  intro a b c h1 h2
  exact lexLe_trans a.data b.data c.data h1 h2

theorem hourNumLe_total : ∀ a b : HourGroup, (hourNumLe a b || hourNumLe b a) = true := by
  intro a b
  rcases Nat.le_total (jsNumber a.hour) (jsNumber b.hour) with h | h
  · simp [hourNumLe, h]
  · simp [hourNumLe, h]

theorem hourNumLe_trans : ∀ a b c : HourGroup,
    hourNumLe a b = true → hourNumLe b c = true → hourNumLe a c = true := by
  intro a b c h1 h2
  exact decide_eq_true (Nat.le_trans (of_decide_eq_true h1) (of_decide_eq_true h2))

/- ===================== dedup and cleaned lemmas ===================== -/

theorem mem_setDedupAux : ∀ (ts seen : List String) (x : String),
    x ∈ setDedupAux seen ts ↔ x ∈ ts ∧ x ∉ seen := by
  intro ts
  induction ts with
  | nil => intro seen x; simp [setDedupAux]
  | cons t ts ih =>
    intro seen x
    by_cases h : t ∈ seen
    · rw [setDedupAux, if_pos h, ih]
      constructor
      · rintro ⟨hx, hs⟩
        exact ⟨List.mem_cons_of_mem t hx, hs⟩
      · rintro ⟨hx, hs⟩
        rcases List.mem_cons.1 hx with hxt | hx
        · exact absurd (by rw [hxt]; exact h) hs
        · exact ⟨hx, hs⟩
    · rw [setDedupAux, if_neg h]
      simp only [List.mem_cons, ih]
      constructor
      · rintro (rfl | ⟨hx, hs⟩)
        · exact ⟨Or.inl rfl, h⟩
        · exact ⟨Or.inr hx, fun hxs => hs (Or.inr hxs)⟩
      · rintro ⟨hxt | hx, hs⟩
        · exact Or.inl hxt
        · by_cases hxt : x = t
          · exact Or.inl hxt
          · refine Or.inr ⟨hx, fun hxs => ?_⟩
            rcases hxs with h1 | h1
            · exact hxt h1
            · exact hs h1

theorem nodup_setDedupAux : ∀ (ts seen : List String), (setDedupAux seen ts).Nodup := by
  intro ts
  induction ts with
  | nil => intro seen; simp [setDedupAux]
  | cons t ts ih =>
    intro seen
    by_cases h : t ∈ seen
    · rw [setDedupAux, if_pos h]; exact ih seen
    · rw [setDedupAux, if_neg h]
      refine List.nodup_cons.2 ⟨?_, ih (t :: seen)⟩
      intro hmem
      have := (mem_setDedupAux ts (t :: seen) t).1 hmem
      exact this.2 (List.mem_cons_self t seen)

theorem mem_setDedup (ts : List String) (x : String) : x ∈ setDedup ts ↔ x ∈ ts := by
  rw [setDedup, mem_setDedupAux]; simp

theorem nodup_setDedup (ts : List String) : (setDedup ts).Nodup := nodup_setDedupAux ts []

theorem isHHMM_ne_empty {t : String} (h : isHHMM t = true) : t ≠ "" := by
  intro he
  subst he
  exact absurd h (by decide)

theorem mem_cleanedOf (slots : List String) (t : String) :
    t ∈ cleanedOf slots ↔ t ∈ slots ∧ isHHMM t = true := by
  rw [cleanedOf, mem_sortLe, List.mem_filter, mem_setDedup, List.mem_filter]
  constructor
  · rintro ⟨⟨hs, _⟩, hv⟩
    exact ⟨hs, hv⟩
  · rintro ⟨hs, hv⟩
    refine ⟨⟨hs, ?_⟩, hv⟩
    exact bne_iff_ne.2 (isHHMM_ne_empty hv)

theorem sorted_cleanedOf (slots : List String) :
    (cleanedOf slots).Pairwise (fun a b => strLe a b = true) :=
  sorted_sortLe strLe strLe_trans strLe_total _

theorem nodup_cleanedOf (slots : List String) : (cleanedOf slots).Nodup :=
  nodup_sortLe _ _ ((nodup_setDedup _).filter _)

/- ===================== byHour invariant lemmas ===================== -/

theorem keysOf_cons (kl : String × List String) (rest : List (String × List String)) :
    keysOf (kl :: rest) = kl.1 :: keysOf rest := rfl

theorem keysOf_pushTime : ∀ (m : List (String × List String)) (hh t : String),
    keysOf (pushTime m hh t) = if hh ∈ keysOf m then keysOf m else keysOf m ++ [hh] := by
  intro m
  induction m with
  | nil => intro hh t; simp [pushTime, keysOf]
  | cons kl rest ih =>
    intro hh t
    obtain ⟨k, l⟩ := kl
    by_cases h : k = hh
    · rw [h]
      rw [pushTime, if_pos rfl, keysOf_cons, keysOf_cons]
      rw [if_pos (List.mem_cons_self hh (keysOf rest))]
    · rw [pushTime, if_neg h, keysOf_cons, keysOf_cons, ih hh t]
      by_cases hmem : hh ∈ keysOf rest
      · rw [if_pos hmem, if_pos (List.mem_cons_of_mem _ hmem)]
      · rw [if_neg hmem, if_neg ?_]
        · simp
        · intro hc
          rcases List.mem_cons.1 hc with h1 | h1
          · exact h h1.symm
          · exact hmem h1

theorem mem_pushTime : ∀ (m : List (String × List String)) (hh t : String)
    (kl : String × List String), (keysOf m).Nodup → kl ∈ pushTime m hh t →
    (kl ∈ m ∧ kl.1 ≠ hh) ∨ (∃ l, (hh, l) ∈ m ∧ kl = (hh, l ++ [t])) ∨
    (hh ∉ keysOf m ∧ kl = (hh, [t])) := by
  intro m
  induction m with
  | nil =>
    intro hh t kl _ hmem
    simp only [pushTime, List.mem_singleton] at hmem
    exact Or.inr (Or.inr ⟨by simp [keysOf], hmem⟩)
  | cons kl0 rest ih =>
    intro hh t kl hnd hmem
    obtain ⟨k, l⟩ := kl0
    rw [keysOf_cons] at hnd
    have hndk : k ∉ keysOf rest := (List.nodup_cons.1 hnd).1
    have hndr : (keysOf rest).Nodup := (List.nodup_cons.1 hnd).2
    by_cases h : k = hh
    · rw [pushTime, if_pos h] at hmem
      rcases List.mem_cons.1 hmem with h1 | h1
      · exact Or.inr (Or.inl ⟨l, by rw [← h]; exact List.mem_cons_self _ _, by rw [h1, h]⟩)
      · left
        refine ⟨List.mem_cons_of_mem _ h1, fun hc => ?_⟩
        apply hndk
        rw [h, ← hc]
        exact List.mem_map_of_mem Prod.fst h1
    · rw [pushTime, if_neg h] at hmem
      rcases List.mem_cons.1 hmem with h1 | h1
      · exact Or.inl ⟨by rw [h1]; exact List.mem_cons_self _ _, by rw [h1]; exact h⟩
      · rcases ih hh t kl hndr h1 with ⟨h2, h3⟩ | ⟨l', h2, h3⟩ | ⟨h2, h3⟩
        · exact Or.inl ⟨List.mem_cons_of_mem _ h2, h3⟩
        · exact Or.inr (Or.inl ⟨l', List.mem_cons_of_mem _ h2, h3⟩)
        · refine Or.inr (Or.inr ⟨fun hc => ?_, h3⟩)
          rw [keysOf_cons] at hc
          rcases List.mem_cons.1 hc with h4 | h4
          · exact h h4.symm
          · exact h2 h4

theorem pushTime_inv (p : List String) (m : List (String × List String)) (t : String)
    (h : HourMapInv p m) : HourMapInv (p ++ [t]) (pushTime m (hourStr t) t) := by
  obtain ⟨hnd, hgroups, hmissing⟩ := h
  refine ⟨?_, ?_, ?_⟩
  · rw [keysOf_pushTime]
    by_cases hmem : hourStr t ∈ keysOf m
    · rw [if_pos hmem]; exact hnd
    · rw [if_neg hmem]
      simp [List.nodup_append, hnd, hmem]
  · intro kl hkl
    rcases mem_pushTime m (hourStr t) t kl hnd hkl with ⟨h1, h2⟩ | ⟨l', h1, h2⟩ | ⟨h1, h2⟩
    · rw [List.filter_append, hgroups kl h1]
      have hq : (hourStr t == kl.1) = false := beq_eq_false_iff_ne.2 (Ne.symm h2)
      simp [List.filter_cons, hq]
    · rw [h2, List.filter_append]
      have hl' : l' = p.filter (fun u => hourStr u == hourStr t) := hgroups (hourStr t, l') h1
      simp [List.filter_cons, ← hl']
    · rw [h2, List.filter_append, hmissing (hourStr t) h1]
      simp [List.filter_cons]
  · intro k hk
    rw [keysOf_pushTime] at hk
    by_cases hmem : hourStr t ∈ keysOf m
    · rw [if_pos hmem] at hk
      have hkt : (hourStr t == k) = false :=
        beq_eq_false_iff_ne.2 (fun hc => hk (by rw [← hc]; exact hmem))
      rw [List.filter_append, hmissing k hk]
      simp [List.filter_cons, hkt]
    · rw [if_neg hmem] at hk
      have hk1 : k ∉ keysOf m := fun hc => hk (List.mem_append.2 (Or.inl hc))
      have hk2 : (hourStr t == k) = false :=
        beq_eq_false_iff_ne.2
          (fun hc => hk (List.mem_append.2 (Or.inr (by rw [hc]; exact List.mem_singleton.2 rfl))))
      rw [List.filter_append, hmissing k hk1]
      simp [List.filter_cons, hk2]

theorem byHourAux_inv : ∀ (ts p : List String) (m : List (String × List String)),
    HourMapInv p m → HourMapInv (p ++ ts) (byHourAux m ts) := by
  intro ts
  induction ts with
  | nil => intro p m h; simpa [byHourAux] using h
  | cons t ts ih =>
    intro p m h
    rw [byHourAux]
    have := ih (p ++ [t]) (pushTime m (hourStr t) t) (pushTime_inv p m t h)
    simpa [List.append_assoc] using this

theorem byHourOf_inv (ts : List String) : HourMapInv ts (byHourOf ts) := by
  have hbase : HourMapInv [] [] := ⟨by simp [keysOf], by simp, by simp⟩
  have := byHourAux_inv ts [] [] hbase
  simpa [byHourOf] using this

/- ===================== bucket routing lemmas ===================== -/

theorem pushGroups_eq : ∀ (m : List (String × List String)) (acc : BucketSections),
    pushGroups acc m =
      ⟨acc.morning ++ groupsFor .morning m,
       acc.afternoon ++ groupsFor .afternoon m,
       acc.evening ++ groupsFor .evening m⟩ := by
  intro m
  induction m with
  | nil => intro acc; simp [pushGroups, groupsFor]
  | cons kl rest ih =>
    intro acc
    obtain ⟨hh, l⟩ := kl
    cases hb : bucketOfHour hh
    case morning =>
      simp only [pushGroups, hb]
      rw [ih]
      simp [groupsFor, List.filter_cons, hb, List.append_assoc]
    case afternoon =>
      simp only [pushGroups, hb]
      rw [ih]
      simp [groupsFor, List.filter_cons, hb, List.append_assoc]
    case evening =>
      simp only [pushGroups, hb]
      rw [ih]
      simp [groupsFor, List.filter_cons, hb, List.append_assoc]

theorem sectionsFor_buildSections (slots : List String) (b : Bucket) :
    sectionsFor (buildSections slots) b =
      sortGroups (groupsFor b (byHourOf (cleanedOf slots))) := by
  cases b <;> simp [buildSections, sectionsFor, pushGroups_eq]

theorem group_list_eq {slots : List String} {b : Bucket} {g : HourGroup}
    (hg : g ∈ sectionsFor (buildSections slots) b) :
    g.list = (cleanedOf slots).filter (fun t => hourStr t == g.hour) := by
  rw [sectionsFor_buildSections, sortGroups, mem_sortLe, groupsFor] at hg
  rcases List.mem_map.1 hg with ⟨kl, hkl, hgkl⟩
  have hkl' : kl ∈ byHourOf (cleanedOf slots) := List.mem_of_mem_filter hkl
  have hinv := byHourOf_inv (cleanedOf slots)
  have := hinv.2.1 kl hkl'
  rw [← hgkl]
  exact this

/- ===================== claim theorems ===================== -/

/-- C1: for every valid time string, the bucket its hour key is assigned to
by `bucketOfHour` is determined solely by the hour-of-day: hours 05–11 go to
the morning bucket, 12–17 to the afternoon bucket, and 18–23 as well as
00–04 to the evening bucket. -/
theorem bucketOfHour_hour_ranges (t : String) (_hv : isHHMM t = true) :
    (∀ u : String, hourStr u = hourStr t →
      bucketOfHour (hourStr u) = bucketOfHour (hourStr t)) ∧
    (5 ≤ jsNumber (hourStr t) ∧ jsNumber (hourStr t) ≤ 11 →
      bucketOfHour (hourStr t) = Bucket.morning) ∧
    (12 ≤ jsNumber (hourStr t) ∧ jsNumber (hourStr t) ≤ 17 →
      bucketOfHour (hourStr t) = Bucket.afternoon) ∧
    ((18 ≤ jsNumber (hourStr t) ∧ jsNumber (hourStr t) ≤ 23) ∨ jsNumber (hourStr t) ≤ 4 →
      bucketOfHour (hourStr t) = Bucket.evening) := by
  refine ⟨fun u hu => by rw [hu], ?_, ?_, ?_⟩
  · intro h
    rw [bucketOfHour, if_pos h]
  · intro h
    rw [bucketOfHour, if_neg (by omega), if_pos h]
  · intro h
    rw [bucketOfHour, if_neg (by omega), if_neg (by omega)]

/-- Witness for `bucketOfHour_hour_ranges` at the concrete time "09:30". -/
theorem bucketOfHour_hour_ranges_witness :
    isHHMM "09:30" = true ∧ bucketOfHour (hourStr "09:30") = Bucket.morning :=
  ⟨by decide, (bucketOfHour_hour_ranges "09:30" (by decide)).2.1 (by decide)⟩

/-- C2: the cleaned list underlying section building is sorted
lexicographically and duplicate-free, and contains exactly the fetched
entries matching the two-digit HH:MM pattern; consequently every rendered
time comes from a valid fetched entry, and for the input
["09:00","09:00","09:30"] the hour-09 group holds exactly two entries. -/
theorem buildSections_cleaning (slots : List String) :
    (cleanedOf slots).Pairwise (fun a b => strLe a b = true) ∧
    (cleanedOf slots).Nodup ∧
    (∀ t, t ∈ cleanedOf slots ↔ t ∈ slots ∧ isHHMM t = true) ∧
    (∀ b : Bucket, ∀ g ∈ sectionsFor (buildSections slots) b,
      ∀ t ∈ g.list, t ∈ slots ∧ isHHMM t = true) ∧
    (sectionsFor (buildSections ["09:00", "09:00", "09:30"]) Bucket.morning).map
        (fun g => (g.hour, g.list.length)) = [("09", 2)] := by
  refine ⟨sorted_cleanedOf slots, nodup_cleanedOf slots, mem_cleanedOf slots, ?_, by decide⟩
  intro b g hg t ht
  rw [group_list_eq hg] at ht
  exact (mem_cleanedOf slots t).1 (List.mem_of_mem_filter ht)

/-- C3: in the built sections, all times of one hour group share that
group's hour key and are strictly ascending, and the hour groups of each
bucket are ordered by ascending numeric hour; for slots
["10:30","09:00","09:45"] the morning bucket is the 09 group (09:00 before
09:45) followed by the 10 group. -/
theorem buildSections_ordering (slots : List String) (b : Bucket) :
    (∀ g ∈ sectionsFor (buildSections slots) b,
      (∀ t ∈ g.list, hourStr t = g.hour) ∧
      g.list.Pairwise (fun t₁ t₂ => strLe t₁ t₂ = true) ∧ g.list.Nodup) ∧
    (sectionsFor (buildSections slots) b).Pairwise
      (fun g₁ g₂ => jsNumber g₁.hour ≤ jsNumber g₂.hour) ∧
    sectionsFor (buildSections ["10:30", "09:00", "09:45"]) Bucket.morning =
      [⟨"09", ["09:00", "09:45"]⟩, ⟨"10", ["10:30"]⟩] := by
  refine ⟨?_, ?_, by decide⟩
  · intro g hg
    have hlist := group_list_eq hg
    refine ⟨?_, ?_, ?_⟩
    · intro t ht
      rw [hlist, List.mem_filter] at ht
      exact eq_of_beq ht.2
    · rw [hlist]
      exact List.Pairwise.sublist (List.filter_sublist _) (sorted_cleanedOf slots)
    · rw [hlist]
      exact (nodup_cleanedOf slots).sublist (List.filter_sublist _)
  · rw [sectionsFor_buildSections, sortGroups]
    have hs := sorted_sortLe hourNumLe hourNumLe_trans hourNumLe_total
      (groupsFor b (byHourOf (cleanedOf slots)))
    exact hs.imp (fun h => of_decide_eq_true h)

theorem initialBucket_guess (c : Counts) (h : Nat)
    (hg : countOf c (guessBucket h) ≠ 0) : initialBucket c h = guessBucket h := by
  rw [initialBucket, if_pos hg]

theorem initialBucket_fallback (c : Counts) (h : Nat)
    (hg : countOf c (guessBucket h) = 0)
    (hne : c.morning + c.afternoon + c.evening ≠ 0) :
    countOf c (initialBucket c h) ≠ 0 ∧
    ∀ b, bucketIdx b < bucketIdx (initialBucket c h) → countOf c b = 0 := by
  rw [initialBucket, if_neg (by simp [hg])]
  by_cases hm : c.morning = 0
  · rw [if_neg (by simp [hm])]
    by_cases ha : c.afternoon = 0
    · rw [if_neg (by simp [ha])]
      refine ⟨by show c.evening ≠ 0; omega, ?_⟩
      intro b hb
      cases b
      · exact hm
      · exact ha
      · exact absurd hb (by simp [bucketIdx])
    · rw [if_pos ha]
      refine ⟨ha, ?_⟩
      intro b hb
      cases b
      · exact hm
      · exact absurd hb (by simp [bucketIdx])
      · exact absurd hb (by simp [bucketIdx])
  · rw [if_pos hm]
    refine ⟨hm, ?_⟩
    intro b hb
    cases b <;> exact absurd hb (by simp [bucketIdx])

/-- C4: on a successful day-slot fetch with at least one bucketed time, the
ready state's active bucket is the wall-clock guess when that bucket is
non-empty, and otherwise the first non-empty bucket in the order morning,
afternoon, evening. -/
theorem fetchSlots_initial_bucket (slots : List String) (nowHour : Nat)
    (hne : (countsOf (buildSections slots)).morning +
           (countsOf (buildSections slots)).afternoon +
           (countsOf (buildSections slots)).evening ≠ 0) :
    fetchSlotsFor (.ok slots) nowHour =
      .ready (buildSections slots) (countsOf (buildSections slots))
        (initialBucket (countsOf (buildSections slots)) nowHour) ∧
    (countOf (countsOf (buildSections slots)) (guessBucket nowHour) ≠ 0 →
      initialBucket (countsOf (buildSections slots)) nowHour = guessBucket nowHour) ∧
    (countOf (countsOf (buildSections slots)) (guessBucket nowHour) = 0 →
      countOf (countsOf (buildSections slots))
          (initialBucket (countsOf (buildSections slots)) nowHour) ≠ 0 ∧
      ∀ b, bucketIdx b < bucketIdx (initialBucket (countsOf (buildSections slots)) nowHour) →
        countOf (countsOf (buildSections slots)) b = 0) := by
  have hslots : slots ≠ [] := by
    intro hnil
    rw [hnil] at hne
    exact hne (by decide)
  refine ⟨?_, initialBucket_guess _ _, fun hg => initialBucket_fallback _ _ hg hne⟩
  simp only [fetchSlotsFor]
  rw [if_neg (by simp [List.length_eq_zero, hslots])]

/-- Witness for `fetchSlots_initial_bucket`: slots ["09:00"] at wall-clock
hour 14 — the guessed afternoon bucket is empty, so the fallback selects the
non-empty morning bucket (the spec's example). -/
theorem fetchSlots_initial_bucket_witness :
    fetchSlotsFor (.ok ["09:00"]) 14 =
      .ready (buildSections ["09:00"]) (countsOf (buildSections ["09:00"]))
        (initialBucket (countsOf (buildSections ["09:00"])) 14) ∧
    initialBucket (countsOf (buildSections ["09:00"])) 14 = Bucket.morning := by
  have h := fetchSlots_initial_bucket ["09:00"] 14 (by decide)
  exact ⟨h.1, by decide⟩

/-- C5: a non-2xx day-slot response yields the error panel, and the
body-derived part of the displayed detail is the body's first at most 140
characters. -/
theorem fetchSlots_http_error (status : Nat) (path body : String) (nowHour : Nat) :
    fetchSlotsFor (.httpError status path body) nowHour =
      .error ("HTTP " ++ toString status ++ " em " ++ path ++ " – " ++ sliceTo body 140) ∧
    showsErrorPanel (fetchSlotsFor (.httpError status path body) nowHour) = true ∧
    (sliceTo body 140).length ≤ 140 ∧
    (sliceTo body 140).data = body.data.take 140 := by
  refine ⟨rfl, rfl, ?_, rfl⟩
  show (body.data.take 140).length ≤ 140
  rw [List.length_take]
  exact min_le_left _ _

/-- C6: submission with an empty trimmed contact or no selected service is
cancelled, returns the wizard to step 1 and alerts a validation message (no
form post); with both present the hidden flag is set to "1" and the post
proceeds. -/
theorem submitGuard_validation (telefone servico : String) :
    ((jsTrim telefone = "" ∨ servico = "") →
      submitGuard telefone servico = .cancelled 1 "Preencha WhatsApp e Serviço.") ∧
    (jsTrim telefone ≠ "" → servico ≠ "" →
      submitGuard telefone servico = .proceed "1") := by
  constructor
  · intro h
    rw [submitGuard, if_pos h]
  · intro h1 h2
    rw [submitGuard, if_neg (by simp [h1, h2])]

/-- Witness for `submitGuard_validation`: a whitespace-only contact is
rejected; a filled contact with a selected service proceeds. -/
theorem submitGuard_validation_witness :
    submitGuard " " "3" = .cancelled 1 "Preencha WhatsApp e Serviço." ∧
    submitGuard "11999990000" "3" = .proceed "1" :=
  ⟨(submitGuard_validation " " "3").1 (Or.inl (by decide)),
   (submitGuard_validation "11999990000" "3").2 (by decide) (by decide)⟩

/-- C7 counterexample: cancelling the deny prompt does not stop the action —
`prompt(...) || ''` coerces the cancelled (null) prompt to an empty reason
and the POST is still issued. -/
theorem openDeny_posts_despite_cancel :
    (openDeny "/deny/1/" PromptResult.cancelled ⟨false, "❌ Negar"⟩ PostResult.ok).posts =
      [⟨"/deny/1/", [("motivo", "")]⟩] := by decide

/-- C7 amended: the finalize and no-show actions require the blocking
confirm and cancelling it issues no network request; the deny action shows a
blocking prompt for an optional reason but issues its POST (with an empty
reason) even when the prompt is cancelled. -/
theorem staff_confirmation_gating (url : String) (b : ButtonState) (p : PostResult) :
    (submitFinalize url false b p).posts = [] ∧
    (submitNoShow url false b p).posts = [] ∧
    (url ≠ "" → (submitFinalize url true b p).posts = [⟨url, []⟩]) ∧
    (url ≠ "" → (submitNoShow url true b p).posts = [⟨url, []⟩]) ∧
    (url ≠ "" → ∀ r : PromptResult,
      (openDeny url r b p).posts = [⟨url, [("motivo", promptOrEmpty r)]⟩]) := by
  refine ⟨rfl, rfl, ?_, ?_, ?_⟩
  · intro hu
    cases p <;> simp [submitFinalize, hu]
  · intro hu
    cases p <;> simp [submitNoShow, hu]
  · intro hu r
    cases p <;> simp [openDeny, hu]

/-- Witness for `staff_confirmation_gating`: with a concrete URL, a refused
confirm issues no POST and an accepted one issues exactly the finalize
POST. -/
theorem staff_confirmation_gating_witness :
    (submitFinalize "/fin/9/" false ⟨false, "🏁 Finalizar"⟩ PostResult.ok).posts = [] ∧
    (submitFinalize "/fin/9/" true ⟨false, "🏁 Finalizar"⟩ PostResult.ok).posts =
      [⟨"/fin/9/", []⟩] :=
  ⟨(staff_confirmation_gating "/fin/9/" ⟨false, "🏁 Finalizar"⟩ PostResult.ok).1,
   (staff_confirmation_gating "/fin/9/" ⟨false, "🏁 Finalizar"⟩ PostResult.ok).2.2.1
     (by decide)⟩

/-- C8 counterexample: after a failed confirm POST the button's label is the
hard-coded idle label, not the button's own pre-action label. -/
theorem openConfirm_label_not_restored :
    (openConfirm "/confirm/1/" "2" "50" "" ⟨false, "Aprovar"⟩
        (PostResult.fail "HTTP 500 - boom")).btn.label = "✅ Confirmar" ∧
    "✅ Confirmar" ≠ "Aprovar" := ⟨by decide, by decide⟩

/-- C8 amended: when the POST of a staff action fails, the button is
re-enabled and its label is set to the action's fixed idle label (which
restores the original label exactly when the button started with it), and
the error message is alerted; a successful action issues a page reload
request. -/
theorem staff_action_failure_recovery (url servicoId preco inicio msg : String)
    (b : ButtonState) (r : PromptResult) (hu : url ≠ "") :
    (openConfirm url servicoId preco inicio b (.fail msg)).btn =
      ⟨false, "✅ Confirmar"⟩ ∧
    (openConfirm url servicoId preco inicio b (.fail msg)).alerts =
      ["Erro ao confirmar: " ++ msg] ∧
    (openConfirm url servicoId preco inicio b (.fail msg)).reloaded = false ∧
    (openConfirm url servicoId preco inicio b .ok).reloaded = true ∧
    (openDeny url r b (.fail msg)).btn = ⟨false, "❌ Negar"⟩ ∧
    (openDeny url r b (.fail msg)).alerts = ["Erro ao negar: " ++ msg] ∧
    (openDeny url r b .ok).reloaded = true ∧
    (submitFinalize url true b (.fail msg)).btn = ⟨false, "🏁 Finalizar"⟩ ∧
    (submitFinalize url true b (.fail msg)).alerts = ["Erro ao finalizar: " ++ msg] ∧
    (submitFinalize url true b (.fail msg)).reloaded = false ∧
    (submitFinalize url true b .ok).reloaded = true ∧
    (submitNoShow url true b (.fail msg)).btn = ⟨false, "🚫 No-show"⟩ ∧
    (submitNoShow url true b (.fail msg)).alerts = ["Erro ao marcar no-show: " ++ msg] ∧
    (submitNoShow url true b .ok).reloaded = true := by
  refine ⟨?_, ?_, ?_, ?_, ?_, ?_, ?_, ?_, ?_, ?_, ?_, ?_, ?_, ?_⟩ <;>
    simp [openConfirm, openDeny, submitFinalize, submitNoShow, hu]

/-- Witness for `staff_action_failure_recovery` at a concrete URL and error
message. -/
theorem staff_action_failure_recovery_witness :
    (openConfirm "/c/1/" "2" "" "" ⟨false, "✅ Confirmar"⟩ (PostResult.fail "x")).btn =
      ⟨false, "✅ Confirmar"⟩ ∧
    (openConfirm "/c/1/" "2" "" "" ⟨false, "✅ Confirmar"⟩ PostResult.ok).reloaded = true :=
  have h := staff_action_failure_recovery "/c/1/" "2" "" "" "x" ⟨false, "✅ Confirmar"⟩
    PromptResult.cancelled (by decide)
  ⟨h.1, h.2.2.2.1⟩

/-- C9: a failed month-availability precheck only logs a warning and leaves
every calendar day button's disabled state unchanged. -/
theorem precheck_fails_open (e : String) (buttons : List DayButton) :
    precheckMonthAvailability (.failed e) buttons = (buttons, ["[days] erro: " ++ e]) ∧
    (precheckMonthAvailability (.failed e) buttons).1.map DayButton.disabled =
      buttons.map DayButton.disabled := ⟨rfl, rfl⟩

theorem cleanedOf_nil_of_all_invalid {slots : List String}
    (h : ∀ t ∈ slots, isHHMM t = false) : cleanedOf slots = [] := by
  rw [List.eq_nil_iff_forall_not_mem]
  intro t ht
  have h1 := (mem_cleanedOf slots t).1 ht
  have h2 := h t h1.1
  simp [h2] at h1

theorem initialBucket_zero (h : Nat) : initialBucket ⟨0, 0, 0⟩ h = Bucket.evening := by
  rw [initialBucket]
  have hg : countOf ⟨0, 0, 0⟩ (guessBucket h) = 0 := by
    cases hgb : guessBucket h <;> rfl
  rw [if_neg (by simp [hg]), if_neg (by simp), if_neg (by simp)]

/-- C10: the empty-list check runs on the raw slots array, so a non-empty
fetched list whose entries all fail the HH:MM filter does not show the
no-availability state: it renders the ready state whose three buckets all
count zero entries. -/
theorem fetchSlots_ready_on_invalid_only (slots : List String) (nowHour : Nat)
    (h1 : slots ≠ []) (h2 : ∀ t ∈ slots, isHHMM t = false) :
    fetchSlotsFor (.ok slots) nowHour =
      .ready (buildSections slots) ⟨0, 0, 0⟩ Bucket.evening ∧
    showsEmptyPanel (fetchSlotsFor (.ok slots) nowHour) = false ∧
    countsOf (buildSections slots) = ⟨0, 0, 0⟩ := by
  have hc : cleanedOf slots = [] := cleanedOf_nil_of_all_invalid h2
  have hb : buildSections slots = ⟨[], [], []⟩ := by
    unfold buildSections
    rw [hc]
    rfl
  have hcnt : countsOf (buildSections slots) = ⟨0, 0, 0⟩ := by rw [hb]; rfl
  have hlen : ¬ slots.length = 0 := by simp [List.length_eq_zero, h1]
  refine ⟨?_, ?_, hcnt⟩
  · simp only [fetchSlotsFor]
    rw [if_neg hlen, hcnt, initialBucket_zero]
  · simp only [fetchSlotsFor]
    rw [if_neg hlen]
    rfl

/-- Witness for `fetchSlots_ready_on_invalid_only`: the slot "9:00" fails
the two-digit pattern, so the fetch renders the ready state with empty
buckets rather than the no-availability panel. -/
theorem fetchSlots_ready_on_invalid_only_witness :
    fetchSlotsFor (.ok ["9:00"]) 10 =
      .ready (buildSections ["9:00"]) ⟨0, 0, 0⟩ Bucket.evening ∧
    showsEmptyPanel (fetchSlotsFor (.ok ["9:00"]) 10) = false := by
  have h := fetchSlots_ready_on_invalid_only ["9:00"] 10 (by decide) (by decide)
  exact ⟨h.1, h.2.1⟩
